import Mathlib

/-!
Bitcoin JSON-RPC facade (package `bitcoin`).

A shallow embedding of `src/bitcoin/bitcoin.go` and `src/bitcoin/structs.go`.

* Go `string` and `[]byte` values are byte sequences: `List Nat`, one entry per byte.
* Go `error` values are `Option GoError`, `none` being `nil`.
* The transport `rpc.RpcClient` belongs to another package: it is a parameter of the
  model, a state transformer over an arbitrary collaborator state.  Each invocation is
  recorded in a ghost trace so that "invoked once" and "never invoked" can be stated.
* `strconv.ParseUint`, `strconv.ParseInt` and the part of `encoding/json` that the
  facade relies on are embedded from the Go standard library.
-/

namespace bitcoin

/-! ## Go values -/

/-- A Go `string` (or `[]byte`): its bytes. -/
abbrev GoString := List Nat

/-- The bytes of a string literal of the source (all of them are ASCII, where the byte
is the code point). -/
def str (s : String) : GoString := s.toList.map Char.toNat

/-- The sentinel errors of `strconv` that a `*NumError` wraps. -/
inductive NumErrKind where
  | ErrRange
  | ErrSyntax
  | invalidBase (base : Int)
  | invalidBitSize (bitSize : Int)
  deriving DecidableEq

/-- Go `error` values met by the facade. -/
inductive GoError where
  /-- The value of `errors.New(text)`. -/
  | errorString (text : GoString)
  /-- The value `&strconv.NumError{Func, Num, Err}`. -/
  | numError (Func : GoString) (Num : GoString) (Err : NumErrKind)
  /-- The value `&json.SyntaxError{}`: the payload is not a JSON text. -/
  | jsonSyntaxError
  /-- The value `&json.UnmarshalTypeError{Value}`. -/
  | unmarshalTypeError (Value : GoString)
  /-- An error value made by the `rpc` collaborator, which this package never inspects. -/
  | foreign (id : Nat)
  deriving DecidableEq

/-! ## `strconv.ParseUint` -/

/-- The constant `maxUint64`. -/
def maxUint64 : Nat := 2 ^ 64 - 1

/-- The constant `strconv.IntSize` (64-bit platform). -/
def IntSize : Int := 64

/-- The helper `lower(c)` of `strconv`: `c | ('x' - 'X')`. -/
def lower (c : Nat) : Nat := c ||| 32

/-- The value `syntaxError(fn, str)`. -/
def syntaxError (fn s : GoString) : GoError := .numError fn s .ErrSyntax

/-- The value `rangeError(fn, str)`. -/
def rangeError (fn s : GoString) : GoError := .numError fn s .ErrRange

/-- The value `baseError(fn, str, base)`. -/
def baseError (fn s : GoString) (base : Int) : GoError := .numError fn s (.invalidBase base)

/-- The value `bitSizeError(fn, str, bitSize)`. -/
def bitSizeError (fn s : GoString) (bitSize : Int) : GoError :=
  .numError fn s (.invalidBitSize bitSize)

/-- The function `underscoreOK` of `strconv`, its loop: `saw` is the bucket of the last
byte seen (`^` start, `0` digit or base prefix, `_` underscore, `!` anything else). -/
def underscoreLoop (hex : Bool) : List Nat → Nat → Bool
  | [], saw => saw != 95
  | c :: rest, saw =>
    if (48 ≤ c ∧ c ≤ 57) ∨ (hex = true ∧ 97 ≤ lower c ∧ lower c ≤ 102) then
      underscoreLoop hex rest 48
    else if c = 95 then
      if saw ≠ 48 then false else underscoreLoop hex rest 95
    else if saw = 95 then false
    else underscoreLoop hex rest 33

/-- The function `underscoreOK` of `strconv`: underscores only between digits or between a
base prefix and a digit. -/
def underscoreOK (s : GoString) : Bool :=
  let s1 := match s with
    | c :: rest => if c = 45 ∨ c = 43 then rest else s
    | [] => s
  match s1 with
  | 48 :: c :: rest =>
    if lower c = 98 ∨ lower c = 111 ∨ lower c = 120 then
      underscoreLoop (lower c = 120) rest 48
    else underscoreLoop false s1 94
  | _ => underscoreLoop false s1 94

/-- The digit loop of `ParseUint`.  The result is `.error (value, kind)` on an early
return and `.ok (n, underscores)` when every byte has been consumed.  Arithmetic is that
of `uint64`. -/
def parseUintLoop (base : Nat) (base0 : Bool) (cutoff maxVal : Nat) :
    List Nat → Nat → Bool → Except (Nat × NumErrKind) (Nat × Bool)
  | [], n, underscores => .ok (n, underscores)
  | c :: rest, n, underscores =>
    if c = 95 ∧ base0 = true then
      parseUintLoop base base0 cutoff maxVal rest n true
    else
      let digit : Option Nat :=
        if 48 ≤ c ∧ c ≤ 57 then some (c - 48)
        else if 97 ≤ lower c ∧ lower c ≤ 122 then some ((lower c - 97 + 10) % 256)
        else none
      match digit with
      | none => .error (0, .ErrSyntax)
      | some d =>
        if d ≥ base % 256 then .error (0, .ErrSyntax)
        else if n ≥ cutoff then .error (maxVal, .ErrRange)
        else
          let n' := (n * base) % 2 ^ 64
          let n1 := (n' + d) % 2 ^ 64
          if n1 < n' ∨ n1 > maxVal then .error (maxVal, .ErrRange)
          else parseUintLoop base base0 cutoff maxVal rest n1 underscores

/-- The base-prefix detection of `ParseUint` for `base == 0`: the base and the remaining
bytes. -/
def detectBase (s : GoString) : Nat × GoString :=
  match s with
  | 48 :: c :: rest =>
    if 3 ≤ s.length ∧ lower c = 98 then (2, rest)
    else if 3 ≤ s.length ∧ lower c = 111 then (8, rest)
    else if 3 ≤ s.length ∧ lower c = 120 then (16, rest)
    else (8, c :: rest)
  | 48 :: rest => (8, rest)
  | _ => (10, s)

/-- The function `strconv.ParseUint(s, base, bitSize)`. -/
def ParseUint (s : GoString) (base : Int) (bitSize : Int) : Nat × Option GoError :=
  let fnParseUint := str "ParseUint"
  if s = [] then (0, some (syntaxError fnParseUint s))
  else
    let base0 : Bool := base = 0
    let s0 := s
    if ¬ ((2 ≤ base ∧ base ≤ 36) ∨ base = 0) then (0, some (baseError fnParseUint s0 base))
    else
      let (base', s') := if base = 0 then detectBase s else (base.toNat, s)
      let bitSize' := if bitSize = 0 then IntSize else bitSize
      if bitSize' < 0 ∨ bitSize' > 64 then (0, some (bitSizeError fnParseUint s0 bitSize))
      else
        let cutoff := maxUint64 / base' + 1
        let maxVal := ((2 ^ bitSize'.toNat) % 2 ^ 64 + 2 ^ 64 - 1) % 2 ^ 64
        match parseUintLoop base' base0 cutoff maxVal s' 0 false with
        | .error (v, kind) => (v, some (.numError fnParseUint s0 kind))
        | .ok (n, underscores) =>
          if underscores = true ∧ underscoreOK s0 = false then
            (0, some (syntaxError fnParseUint s0))
          else (n, none)

/-! ## `strconv.ParseInt` -/

/-- The function `strconv.ParseInt(s, base, bitSize)`. -/
def ParseInt (s : GoString) (base : Int) (bitSize : Int) : Int × Option GoError :=
  let fnParseInt := str "ParseInt"
  match s with
  | [] => (0, some (syntaxError fnParseInt s))
  | c :: rest =>
    let s0 := s
    let neg : Bool := c = 45
    let s1 := if c = 43 ∨ c = 45 then rest else s
    match ParseUint s1 base bitSize with
    | (_, some (.numError _ _ .ErrSyntax)) => (0, some (.numError fnParseInt s0 .ErrSyntax))
    | (_, some (.numError _ _ (.invalidBase b))) =>
      (0, some (.numError fnParseInt s0 (.invalidBase b)))
    | (_, some (.numError _ _ (.invalidBitSize b))) =>
      (0, some (.numError fnParseInt s0 (.invalidBitSize b)))
    | (un, _) =>
      let bitSize' := if bitSize = 0 then IntSize else bitSize
      let cutoff : Nat := 2 ^ (bitSize' - 1).toNat
      if neg = false ∧ un ≥ cutoff then ((cutoff : Int) - 1, some (rangeError fnParseInt s0))
      else if neg = true ∧ un > cutoff then (-(cutoff : Int), some (rangeError fnParseInt s0))
      else if neg = true then (-(un : Int), none)
      else ((un : Int), none)

/-! ## `encoding/json`: the scanner -/

/-- A JSON value as the scanner of `encoding/json` delimits it.  A number keeps its
literal; a string and a key are held unquoted. -/
inductive JSON where
  | null
  | bool (b : Bool)
  | number (lit : GoString)
  | string (s : GoString)
  | array (elems : List JSON)
  | object (members : List (GoString × JSON))

/-- The function `isSpace` of the scanner. -/
def isSpace (c : Nat) : Bool := c = 32 ∨ c = 9 ∨ c = 13 ∨ c = 10

/-- Skip the white space in front of the next token. -/
def skipSpace : List Nat → List Nat
  | [] => []
  | c :: rest => if isSpace c then skipSpace rest else c :: rest

/-- The value of a hexadecimal digit, if the byte is one. -/
def hexVal (c : Nat) : Option Nat :=
  if 48 ≤ c ∧ c ≤ 57 then some (c - 48)
  else if 97 ≤ c ∧ c ≤ 102 then some (c - 97 + 10)
  else if 65 ≤ c ∧ c ≤ 70 then some (c - 65 + 10)
  else none

/-- The function `getu4`: the code unit of a leading `\uXXXX`, if there is one. -/
def getu4 : List Nat → Option Nat
  | 92 :: 117 :: a :: b :: c :: d :: _ =>
    match hexVal a, hexVal b, hexVal c, hexVal d with
    | some x, some y, some z, some w => some (x * 4096 + y * 256 + z * 16 + w)
    | _, _, _, _ => none
  | _ => none

/-- The scanner inside a string literal, after the opening quote: the raw bytes up to
the closing quote, and what follows it.  Control bytes and unknown escapes are
rejected. -/
def scanString : List Nat → Option (List Nat × List Nat)
  | [] => none
  | 34 :: rest => some ([], rest)
  | 92 :: 117 :: a :: b :: c :: d :: rest =>
    if (hexVal a).isSome ∧ (hexVal b).isSome ∧ (hexVal c).isSome ∧ (hexVal d).isSome then
      (scanString rest).map fun r => (92 :: 117 :: a :: b :: c :: d :: r.1, r.2)
    else none
  | 92 :: e :: rest =>
    if e = 98 ∨ e = 102 ∨ e = 110 ∨ e = 114 ∨ e = 116 ∨ e = 92 ∨ e = 47 ∨ e = 34 then
      (scanString rest).map fun r => (92 :: e :: r.1, r.2)
    else none
  | [92] => none
  | c :: rest =>
    if c < 32 then none
    else (scanString rest).map fun r => (c :: r.1, r.2)

/-- The function `utf8.EncodeRune`. -/
def encodeRune (r : Nat) : List Nat :=
  if r ≤ 127 then [r]
  else if r ≤ 2047 then [192 ||| (r >>> 6), 128 ||| (r &&& 63)]
  else if r > 1114111 ∨ (55296 ≤ r ∧ r ≤ 57343) then [239, 191, 189]
  else if r ≤ 65535 then [224 ||| (r >>> 12), 128 ||| ((r >>> 6) &&& 63), 128 ||| (r &&& 63)]
  else [240 ||| (r >>> 18), 128 ||| ((r >>> 12) &&& 63), 128 ||| ((r >>> 6) &&& 63),
        128 ||| (r &&& 63)]

/-- A continuation byte of UTF-8. -/
def isCont (c : Nat) : Bool := 128 ≤ c ∧ c ≤ 191

/-- The size that `utf8.DecodeRune` reports for a well-formed sequence in front of the
bytes, `none` where it reports `RuneError` with size 1. -/
def runeSize : List Nat → Option Nat
  | c0 :: rest =>
    if c0 < 128 then some 1
    else if 194 ≤ c0 ∧ c0 ≤ 223 then
      match rest with
      | c1 :: _ => if isCont c1 then some 2 else none
      | _ => none
    else if 224 ≤ c0 ∧ c0 ≤ 239 then
      match rest with
      | c1 :: c2 :: _ =>
        let lo := if c0 = 224 then 160 else 128
        let hi := if c0 = 237 then 159 else 191
        if lo ≤ c1 ∧ c1 ≤ hi ∧ isCont c2 then some 3 else none
      | _ => none
    else if 240 ≤ c0 ∧ c0 ≤ 244 then
      match rest with
      | c1 :: c2 :: c3 :: _ =>
        let lo := if c0 = 240 then 144 else 128
        let hi := if c0 = 244 then 143 else 191
        if lo ≤ c1 ∧ c1 ≤ hi ∧ isCont c2 ∧ isCont c3 then some 4 else none
      | _ => none
    else none
  | [] => none

/-- The loop of `unquoteBytes` over the bytes between the quotes. -/
def unquoteLoop : Nat → List Nat → Option (List Nat)
  | 0, _ => none
  | _ + 1, [] => some []
  | fuel + 1, 92 :: e :: rest =>
    if e = 34 ∨ e = 92 ∨ e = 47 ∨ e = 39 then (unquoteLoop fuel rest).map (e :: ·)
    else if e = 98 then (unquoteLoop fuel rest).map (8 :: ·)
    else if e = 102 then (unquoteLoop fuel rest).map (12 :: ·)
    else if e = 110 then (unquoteLoop fuel rest).map (10 :: ·)
    else if e = 114 then (unquoteLoop fuel rest).map (13 :: ·)
    else if e = 116 then (unquoteLoop fuel rest).map (9 :: ·)
    else if e = 117 then
      match getu4 (92 :: e :: rest) with
      | none => none
      | some rr =>
        let after := rest.drop 4
        if 55296 ≤ rr ∧ rr < 57344 then
          match getu4 after with
          | some rr1 =>
            if rr < 56320 ∧ 56320 ≤ rr1 ∧ rr1 < 57344 then
              (unquoteLoop fuel (after.drop 6)).map
                (encodeRune ((rr - 55296) * 1024 + (rr1 - 56320) + 65536) ++ ·)
            else (unquoteLoop fuel after).map (encodeRune 65533 ++ ·)
          | none => (unquoteLoop fuel after).map (encodeRune 65533 ++ ·)
        else (unquoteLoop fuel after).map (encodeRune rr ++ ·)
    else none
  | _ + 1, [92] => none
  | fuel + 1, c :: rest =>
    if c = 34 ∨ c < 32 then none
    else if c < 128 then (unquoteLoop fuel rest).map (c :: ·)
    else
      match runeSize (c :: rest) with
      | some size => (unquoteLoop fuel ((c :: rest).drop size)).map ((c :: rest).take size ++ ·)
      | none => (unquoteLoop fuel rest).map (encodeRune 65533 ++ ·)

/-- The function `unquoteBytes`, applied to the bytes between the quotes of a literal. -/
def unquoteBytes (raw : List Nat) : Option GoString := unquoteLoop (raw.length + 1) raw

/-- The leading run of decimal digits and what follows it. -/
def spanDigits : List Nat → List Nat × List Nat
  | [] => ([], [])
  | c :: rest =>
    if 48 ≤ c ∧ c ≤ 57 then
      let r := spanDigits rest
      (c :: r.1, r.2)
    else ([], c :: rest)

/-- The scanner on a number literal: the literal and what follows it. -/
def scanNumber (s : List Nat) : Option (List Nat × List Nat) :=
  let (sign, s1) := match s with
    | 45 :: rest => ([45], rest)
    | _ => ([], s)
  let intPart : Option (List Nat × List Nat) := match s1 with
    | 48 :: rest => some ([48], rest)
    | c :: rest =>
      if 49 ≤ c ∧ c ≤ 57 then
        let r := spanDigits rest
        some (c :: r.1, r.2)
      else none
    | [] => none
  match intPart with
  | none => none
  | some (ip, s2) =>
    let frac : Option (List Nat × List Nat) := match s2 with
      | 46 :: rest =>
        let r := spanDigits rest
        if r.1 = [] then none else some (46 :: r.1, r.2)
      | _ => some ([], s2)
    match frac with
    | none => none
    | some (fp, s3) =>
      let ex : Option (List Nat × List Nat) := match s3 with
        | e :: rest =>
          if e = 101 ∨ e = 69 then
            let (sg, s4) := match rest with
              | g :: rest2 => if g = 43 ∨ g = 45 then ([g], rest2) else ([], rest)
              | [] => ([], rest)
            let r := spanDigits s4
            if r.1 = [] then none else some (e :: sg ++ r.1, r.2)
          else some ([], s3)
        | [] => some ([], s3)
      match ex with
      | none => none
      | some (ep, s5) => some (sign ++ ip ++ fp ++ ep, s5)

/-- The constant `maxNestingDepth` of the scanner. -/
def maxNestingDepth : Nat := 10000

mutual

/-- The scanner on one value whose first byte is next; `depth` is the number of arrays
and objects already open. -/
def scanValue : Nat → Nat → List Nat → Option (JSON × List Nat)
  | 0, _, _ => none
  | _ + 1, _, [] => none
  | fuel + 1, depth, c :: rest =>
    if c = 123 then
      if depth + 1 > maxNestingDepth then none
      else
        match skipSpace rest with
        | 125 :: rest1 => some (.object [], rest1)
        | s1 => (scanMembers fuel (depth + 1) s1).map fun r => (.object r.1, r.2)
    else if c = 91 then
      if depth + 1 > maxNestingDepth then none
      else
        match skipSpace rest with
        | 93 :: rest1 => some (.array [], rest1)
        | s1 => (scanElements fuel (depth + 1) s1).map fun r => (.array r.1, r.2)
    else if c = 34 then
      match scanString rest with
      | none => none
      | some (raw, rest1) => (unquoteBytes raw).map fun u => (.string u, rest1)
    else if c = 45 ∨ (48 ≤ c ∧ c ≤ 57) then
      (scanNumber (c :: rest)).map fun r => (.number r.1, r.2)
    else if c = 116 then
      match rest with
      | 114 :: 117 :: 101 :: rest1 => some (.bool true, rest1)
      | _ => none
    else if c = 102 then
      match rest with
      | 97 :: 108 :: 115 :: 101 :: rest1 => some (.bool false, rest1)
      | _ => none
    else if c = 110 then
      match rest with
      | 117 :: 108 :: 108 :: rest1 => some (.null, rest1)
      | _ => none
    else none

/-- The scanner on the elements of an array, the first byte of an element being next:
the elements up to the closing bracket. -/
def scanElements : Nat → Nat → List Nat → Option (List JSON × List Nat)
  | 0, _, _ => none
  | fuel + 1, depth, s =>
    match scanValue fuel depth s with
    | none => none
    | some (v, rest) =>
      match skipSpace rest with
      | 93 :: rest1 => some ([v], rest1)
      | 44 :: rest1 =>
        (scanElements fuel depth (skipSpace rest1)).map fun r => (v :: r.1, r.2)
      | _ => none

/-- The scanner on the members of an object, the opening quote of a key being next: the
members up to the closing brace. -/
def scanMembers : Nat → Nat → List Nat → Option (List (GoString × JSON) × List Nat)
  | 0, _, _ => none
  | _ + 1, _, [] => none
  | fuel + 1, depth, q :: s =>
    if q ≠ 34 then none
    else
      match scanString s with
      | none => none
      | some (raw, rest) =>
        match unquoteBytes raw, skipSpace rest with
        | some key, 58 :: rest1 =>
          match scanValue fuel depth (skipSpace rest1) with
          | none => none
          | some (v, rest2) =>
            match skipSpace rest2 with
            | 125 :: rest3 => some ([(key, v)], rest3)
            | 44 :: rest3 =>
              (scanMembers fuel depth (skipSpace rest3)).map fun r => ((key, v) :: r.1, r.2)
            | _ => none
        | _, _ => none

end

/-- The function `checkValid` together with the token boundaries the decoder then
follows: the one JSON value of the payload, `none` when the payload is not a JSON
text. -/
def scanDocument (data : GoString) : Option JSON :=
  match scanValue (data.length + 1) 0 (skipSpace data) with
  | none => none
  | some (v, rest) => if skipSpace rest = [] then some v else none

/-! ## `encoding/json`: the decoder

The decoder stores into the value it is given and keeps the first type error
(`d.saveError`) while it goes on decoding.  A member whose key names no field is skipped.
A repeated key is decoded into the value the earlier member left.  For a slice that
means its backing array: an element past the current length is decoded into whatever an
earlier, longer array left at that index (`v.SetLen(i + 1)` does not clear it), and into
a zero value only where nothing was written before. -/

/-- The first saved error is kept. -/
def saveError (saved new : Option GoError) : Option GoError :=
  match saved with
  | some e => some e
  | none => new

/-- The value `&UnmarshalTypeError{Value: v}` for a JSON value met where the target
cannot hold it. -/
def typeError (v : String) : Option GoError := some (.unmarshalTypeError (str v))

/-- The name under which a JSON value appears in an `UnmarshalTypeError`. -/
def JSON.kindName : JSON → String
  | .null => "null"
  | .bool _ => "bool"
  | .number _ => "number"
  | .string _ => "string"
  | .array _ => "array"
  | .object _ => "object"

/-- Decode into a `string`. -/
def storeString (j : JSON) (cur : GoString) : GoString × Option GoError :=
  match j with
  | .null => (cur, none)
  | .string u => (u, none)
  | other => (cur, typeError other.kindName)

/-- Decode into a `bool`. -/
def storeBool (j : JSON) (cur : Bool) : Bool × Option GoError :=
  match j with
  | .null => (cur, none)
  | .bool b => (b, none)
  | other => (cur, typeError other.kindName)

/-- Decode into an `int64`: the literal goes through `strconv.ParseInt(lit, 10, 64)`. -/
def storeInt64 (j : JSON) (cur : Int) : Int × Option GoError :=
  match j with
  | .null => (cur, none)
  | .number lit =>
    match ParseInt lit 10 64 with
    | (n, none) => (n, none)
    | (_, some _) => (cur, some (.unmarshalTypeError (str "number " ++ lit)))
  | other => (cur, typeError other.kindName)

/-- A slice `[]T` while it is decoded: the elements within its length, and behind them
the elements that earlier writes left in its backing array.  Capacity that was never
written holds zero values, so it needs no entry. -/
structure Slice (T : Type) where
  elems : List T
  stale : List T
  deriving DecidableEq

/-- Decode the elements of an array one after the other, the element `i` into what the
backing array holds at index `i`, and into a zero value where it holds nothing. -/
def storeElements {T : Type} (store : JSON → T → T × Option GoError) (zero : T) :
    List JSON → List T → List T × Option GoError
  | [], _ => ([], none)
  | j :: js, backing =>
    let head := store j (backing.headD zero)
    let tail := storeElements store zero js backing.tail
    (head.1 :: tail.1, saveError head.2 tail.2)

/-- Decode into a slice `[]T` (the method `array` of the decoder).  `null` and the empty
array leave a slice with no backing array (`reflect.Zero`, `reflect.MakeSlice(t, 0, 0)`);
an array of `n` elements writes the first `n` places of the backing array and sets the
length to `n`, the places behind them staying as they are. -/
def storeSlice {T : Type} (store : JSON → T → T × Option GoError) (zero : T) (j : JSON)
    (cur : Slice T) : Slice T × Option GoError :=
  match j with
  | .null => ({ elems := [], stale := [] }, none)
  | .array [] => ({ elems := [], stale := [] }, none)
  | .array elems =>
    let r := storeElements store zero elems (cur.elems ++ cur.stale)
    ({ elems := r.1, stale := (cur.elems ++ cur.stale).drop elems.length }, r.2)
  | other => (cur, typeError other.kindName)

/-- The function `foldName`, on the bytes that can fold to an ASCII letter: the ASCII
letters themselves, the Kelvin sign U+212A and the long s U+017F. -/
def foldName : List Nat → List Nat
  | 226 :: 132 :: 170 :: rest => 75 :: foldName rest
  | 197 :: 191 :: rest => 83 :: foldName rest
  | c :: rest => (if 97 ≤ c ∧ c ≤ 122 then c - 32 else c) :: foldName rest
  | [] => []

/-- The field a key selects among the JSON names of a struct: the field of exactly that
name, or else the first one whose folded name is that of the key. -/
def findField (names : List String) (key : GoString) : Option Nat :=
  match names.findIdx? (fun n => decide (str n = key)) with
  | some i => some i
  | none => names.findIdx? (fun n => decide (foldName (str n) = foldName key))

/-- Decode the members of an object into a struct, `setField i` decoding into field `i`. -/
def storeMembers {T : Type} (names : List String)
    (setField : Nat → JSON → T → T × Option GoError) :
    List (GoString × JSON) → T → T × Option GoError
  | [], cur => (cur, none)
  | (key, v) :: rest, cur =>
    match findField names key with
    | none => storeMembers names setField rest cur
    | some i =>
      let head := setField i v cur
      let tail := storeMembers names setField rest head.1
      (tail.1, saveError head.2 tail.2)

/-- Decode into a struct. -/
def storeStruct {T : Type} (names : List String)
    (setField : Nat → JSON → T → T × Option GoError) (j : JSON) (cur : T) :
    T × Option GoError :=
  match j with
  | .null => (cur, none)
  | .object members => storeMembers names setField members cur
  | other => (cur, typeError other.kindName)

/-- The function `json.Unmarshal(data, &v)` for a target whose decoder is `store`: the
payload is checked as a whole first, and only a valid one is decoded. -/
def Unmarshal {T : Type} (store : JSON → T → T × Option GoError) (data : GoString) (cur : T) :
    T × Option GoError :=
  match scanDocument data with
  | none => (cur, some .jsonSyntaxError)
  | some j => store j cur

/-! ## Response schemas (`structs.go`) -/

/-- A `float64`, held as its IEEE-754 bit pattern; the zero value is `0`. -/
abbrev Float64 := Nat

/-- The struct `SmartFee`. -/
structure SmartFee where
  FeeRate : Float64
  Errors : List GoString
  Blocks : Int
  deriving DecidableEq

/-- The struct `SignedRawTransactionError`. -/
structure SignedRawTransactionError where
  Txid : GoString
  Vout : Int
  ScriptSig : GoString
  Sequence : Int
  Error : GoString
  deriving DecidableEq

/-- The struct `SignedRawTransaction`. -/
structure SignedRawTransaction where
  Hex : GoString
  Complete : Bool
  Errors : List SignedRawTransactionError
  deriving DecidableEq

/-- The struct `TransactionDetails`. -/
structure TransactionDetails where
  Account : GoString
  Address : GoString
  Category : GoString
  Amount : Float64
  Fee : Float64
  deriving DecidableEq

/-- The struct `Transaction`. -/
structure Transaction where
  Amount : Float64
  Account : GoString
  Address : GoString
  Category : GoString
  Fee : Float64
  Confirmations : Int
  BlockHash : GoString
  BlockIndex : Int
  BlockTime : Int
  Txid : GoString
  WalletConflicts : List GoString
  Time : Int
  TimeReceived : Int
  Details : List TransactionDetails
  Hex : GoString
  deriving DecidableEq

/-- The zero value of `SmartFee`. -/
def SmartFee.zero : SmartFee := { FeeRate := 0, Errors := [], Blocks := 0 }

/-- The zero value of `SignedRawTransactionError`. -/
def SignedRawTransactionError.zero : SignedRawTransactionError :=
  { Txid := [], Vout := 0, ScriptSig := [], Sequence := 0, Error := [] }

/-- The zero value of `SignedRawTransaction`. -/
def SignedRawTransaction.zero : SignedRawTransaction :=
  { Hex := [], Complete := false, Errors := [] }

/-- The JSON names of the fields of `SignedRawTransactionError`, from its tags. -/
def SignedRawTransactionError.names : List String :=
  ["txid", "vout", "scriptSig", "sequence", "error"]

/-- Decode into field `i` of a `SignedRawTransactionError`. -/
def SignedRawTransactionError.setField (i : Nat) (j : JSON) (cur : SignedRawTransactionError) :
    SignedRawTransactionError × Option GoError :=
  match i with
  | 0 => let r := storeString j cur.Txid; ({ cur with Txid := r.1 }, r.2)
  | 1 => let r := storeInt64 j cur.Vout; ({ cur with Vout := r.1 }, r.2)
  | 2 => let r := storeString j cur.ScriptSig; ({ cur with ScriptSig := r.1 }, r.2)
  | 3 => let r := storeInt64 j cur.Sequence; ({ cur with Sequence := r.1 }, r.2)
  | 4 => let r := storeString j cur.Error; ({ cur with Error := r.1 }, r.2)
  | _ => (cur, none)

/-- Decode into a `SignedRawTransactionError`. -/
def SignedRawTransactionError.store :
    JSON → SignedRawTransactionError → SignedRawTransactionError × Option GoError :=
  storeStruct SignedRawTransactionError.names SignedRawTransactionError.setField

/-- The JSON names of the fields of `SignedRawTransaction`, from its tags. -/
def SignedRawTransaction.names : List String := ["hex", "complete", "errors"]

/-- A `SignedRawTransaction` while it is decoded: the struct, and the stale part of the
backing array of its `Errors`. -/
structure SignedRawTransactionTarget where
  value : SignedRawTransaction
  staleErrors : List SignedRawTransactionError
  deriving DecidableEq

/-- The target that the facade hands to the decoder: a zero value, whose slice has no
backing array. -/
def SignedRawTransactionTarget.zero : SignedRawTransactionTarget :=
  { value := SignedRawTransaction.zero, staleErrors := [] }

/-- Decode into field `i` of a `SignedRawTransaction`. -/
def SignedRawTransaction.setField (i : Nat) (j : JSON) (cur : SignedRawTransactionTarget) :
    SignedRawTransactionTarget × Option GoError :=
  match i with
  | 0 =>
    let r := storeString j cur.value.Hex
    ({ cur with value := { cur.value with Hex := r.1 } }, r.2)
  | 1 =>
    let r := storeBool j cur.value.Complete
    ({ cur with value := { cur.value with Complete := r.1 } }, r.2)
  | 2 =>
    let r := storeSlice SignedRawTransactionError.store SignedRawTransactionError.zero j
      { elems := cur.value.Errors, stale := cur.staleErrors }
    ({ value := { cur.value with Errors := r.1.elems }, staleErrors := r.1.stale }, r.2)
  | _ => (cur, none)

/-- Decode into a `SignedRawTransaction`. -/
def SignedRawTransaction.store :
    JSON → SignedRawTransactionTarget → SignedRawTransactionTarget × Option GoError :=
  storeStruct SignedRawTransaction.names SignedRawTransaction.setField

/-! ## The transport collaborator (package `rpc`) -/

/-- The struct `rpc.RpcResponse`, its fields read by this package: the raw result payload
and the protocol-level error slot. -/
structure RpcResponse where
  Result : GoString
  Err : Option GoError
  deriving DecidableEq

/-- A value stored in a `[]interface{}` argument list. -/
inductive Value where
  | int (i : Int)
  | uint64 (n : Nat)
  | string (s : GoString)
  deriving DecidableEq

/-- The second argument of `Call`: untyped `nil`, a `[]string`, a `[]uint64` or a
`[]interface{}`. -/
inductive Params where
  | nil
  | strings (xs : List GoString)
  | values (xs : List Value)
  deriving DecidableEq

/-- One invocation of the transport: the method name and the argument list. -/
structure Invocation where
  method : GoString
  params : Params
  deriving DecidableEq

/-- The transport `*rpc.RpcClient`: `Call(method, params)` yields a response and a
transport error slot, and may change the state `σ` of the collaborator (the network and
the daemon behind it). -/
structure RpcClient (σ : Type) where
  Call : GoString → Params → σ → (RpcResponse × Option GoError) × σ

/-- The state an operation runs in: the collaborator state and the ghost trace of the
transport invocations made so far. -/
structure World (σ : Type) where
  net : σ
  calls : List Invocation

/-! ## The facade (`bitcoin.go`) -/

/-- The constant `RPCCLIENT_TIMEOUT`. -/
def RPCCLIENT_TIMEOUT : Int := 30

/-- The struct `Bitcoin`: a client handle. -/
structure Bitcoin (C : Type) where
  client : C

/-- The expression `b.client.Call(method, params)`, recorded in the trace. -/
def Bitcoin.call {σ : Type} (b : Bitcoin (RpcClient σ)) (method : GoString) (params : Params)
    (w : World σ) : (RpcResponse × Option GoError) × World σ :=
  let out := b.client.Call method params w.net
  (out.1, { net := out.2, calls := w.calls ++ [{ method := method, params := params }] })

/-- The function `handleError(err, r)`.  Every call site passes the address of a local
response, so `r` is a value. -/
def handleError (err : Option GoError) (r : RpcResponse) : Option GoError :=
  match err with
  | some e => some e
  | none =>
    match r.Err with
    | some e => some e
    | none => none

/-- The function `New`.  `NewClient` is `rpc.NewClient`; `C` is the type of the handle it
returns; the result `none` is the nil `*Bitcoin`. -/
def New {C : Type}
    (NewClient : GoString → Int → GoString → GoString → Bool → Int → C × Option GoError)
    (host : GoString) (port : Int) (user passwd : GoString) (useSSL : Bool)
    (timeoutParam : List Int) : Option (Bitcoin C) × Option GoError :=
  let timeout : Int :=
    match timeoutParam with
    | [] => RPCCLIENT_TIMEOUT
    | t :: _ => t
  let (rpcClient, err) := NewClient host port user passwd useSSL timeout
  match err with
  | some e => (none, some e)
  | none => (some { client := rpcClient }, none)

/-- The method `GetBlockCount`. -/
def Bitcoin.GetBlockCount {σ : Type} (b : Bitcoin (RpcClient σ)) (w : World σ) :
    (Nat × Option GoError) × World σ :=
  let (out, w1) := b.call (str "getblockcount") .nil w
  match handleError out.2 out.1 with
  | some e => ((0, some e), w1)
  | none => (ParseUint out.1.Result 10 64, w1)

/-- The method `GetNewAddress`.  The variadic `account` is the list of the names
passed. -/
def Bitcoin.GetNewAddress {σ : Type} (b : Bitcoin (RpcClient σ)) (account : List GoString)
    (w : World σ) : (GoString × Option GoError) × World σ :=
  if account.length > 1 then
    (([], some (.errorString
      (str "Bad parameters for GetNewAddress: you can set 0 or 1 account"))), w)
  else
    let (out, w1) := b.call (str "getnewaddress") (.strings account) w
    match handleError out.2 out.1 with
    | some e => (([], some e), w1)
    | none => (Unmarshal storeString out.1.Result [], w1)

/-- The map `valid` of `EstimateSmartFee`, looked up at a key: a missing key reads
`false`. -/
def validEstimateMode (estimateMode : GoString) : Bool :=
  match [(str "UNSET", true), (str "ECONOMICAL", true), (str "CONSERVATIVE", true)].lookup
    estimateMode with
  | some v => v
  | none => false

/-- The method `EstimateSmartFee`.  `SmartFee` has a `float64` field, whose decoding
(`strconv.ParseFloat`) is outside the embedding: `unmarshal` stands for
`json.Unmarshal(data, &ret)`. -/
def Bitcoin.EstimateSmartFee {σ : Type} (b : Bitcoin (RpcClient σ))
    (unmarshal : GoString → SmartFee → SmartFee × Option GoError)
    (minconf : Int) (estimateMode : GoString) (w : World σ) :
    (SmartFee × Option GoError) × World σ :=
  if validEstimateMode estimateMode = false then
    ((SmartFee.zero, some (.errorString (str "Not valid estimateMode: " ++ estimateMode))), w)
  else
    let (out, w1) :=
      b.call (str "estimatesmartfee") (.values [.int minconf, .string estimateMode]) w
    match handleError out.2 out.1 with
    | some e => ((SmartFee.zero, some e), w1)
    | none => (unmarshal out.1.Result SmartFee.zero, w1)

/-- The argument list that `ListUnspent` builds. -/
def listUnspentArgs (minconf maxconf : Nat) : List Value :=
  let args := [Value.uint64 minconf]
  if maxconf > 0 then
    let maxconf' := if maxconf < minconf then minconf else maxconf
    args ++ [Value.uint64 maxconf']
  else args

/-- The method `ListUnspent`.  `Transaction` has `float64` fields: `unmarshal` stands for
`json.Unmarshal(data, &transactions)`. -/
def Bitcoin.ListUnspent {σ : Type} (b : Bitcoin (RpcClient σ))
    (unmarshal : GoString → List Transaction → List Transaction × Option GoError)
    (minconf maxconf : Nat) (w : World σ) :
    (List Transaction × Option GoError) × World σ :=
  let (out, w1) := b.call (str "listunspent") (.values (listUnspentArgs minconf maxconf)) w
  match handleError out.2 out.1 with
  | some e => (([], some e), w1)
  | none => (unmarshal out.1.Result [], w1)

/-- The method `SignRawTransactionWithWallet`. -/
def Bitcoin.SignRawTransactionWithWallet {σ : Type} (b : Bitcoin (RpcClient σ))
    (hex : GoString) (w : World σ) : (SignedRawTransaction × Option GoError) × World σ :=
  let (out, w1) := b.call (str "signrawtransactionwithwallet") (.values [.string hex]) w
  match handleError out.2 out.1 with
  | some e => ((SignedRawTransaction.zero, some e), w1)
  | none =>
    let r := Unmarshal SignedRawTransaction.store out.1.Result SignedRawTransactionTarget.zero
    ((r.1.value, r.2), w1)

/-! ## Sample transports and inputs -/

/-- A transport that answers every call with the same response and transport error, and
counts its calls in its state. -/
def constClient (r : RpcResponse) (err : Option GoError) : RpcClient Nat :=
  { Call := fun _ _ n => ((r, err), n + 1) }

/-- A facade over `constClient`. -/
def constBitcoin (r : RpcResponse) (err : Option GoError) : Bitcoin (RpcClient Nat) :=
  { client := constClient r err }

/-- A fresh world: no call made yet. -/
def World.fresh : World Nat := { net := 0, calls := [] }

/-- The payload of the sign-raw-transaction scenario. -/
def signScenarioPayload : GoString :=
  str ("\x7b\"hex\":\"...\",\"complete\":false,\"errors\":[\x7b\"txid\":\"abc\",\"vout\":0," ++
    "\"scriptSig\":\"\",\"sequence\":0,\"error\":\"bad-signature\"\x7d]\x7d")

/-- The decimal text of a natural number, as `strconv.FormatUint(n, 10)` writes it. -/
def decimalText (n : Nat) : GoString := str (toString n)

/-- The number that a run of decimal digit bytes denotes when read after the value
`acc`. -/
def decVal (acc : Nat) (ds : List Nat) : Nat := ds.foldl (fun a c => a * 10 + (c - 48)) acc

/-! ## `strconv.ParseUint` in base 10 on 64 bits -/

/-- Reading more digits does not decrease the value. -/
theorem le_decVal (ds : List Nat) : ∀ acc, acc ≤ decVal acc ds := by
  induction ds with
  | nil => intro acc; exact Nat.le_refl _
  | cons c ds ih =>
    intro acc
    have h := ih (acc * 10 + (c - 48))
    simp only [decVal, List.foldl_cons] at h ⊢
    omega

/-- The digit loop of `ParseUint` in base 10: a range error as soon as the digits read
exceed 64 bits, a syntax error at the first byte that is not a digit, and the value of
the digits otherwise. -/
theorem parseUintLoop_decimal (s : List Nat) :
    ∀ n, n < 18446744073709551616 →
      parseUintLoop 10 false 1844674407370955162 18446744073709551615 s n false
        = if 18446744073709551616 ≤ decVal n (spanDigits s).1 then
            .error (18446744073709551615, .ErrRange)
          else if (spanDigits s).2 ≠ [] then .error (0, .ErrSyntax)
          else .ok (decVal n (spanDigits s).1, false) := by
  induction s with
  | nil =>
    intro n hn
    have : ¬ 18446744073709551616 ≤ n := by omega
    simp [parseUintLoop, spanDigits, decVal, this]
  | cons c rest ih =>
    intro n hn
    by_cases hd : 48 ≤ c ∧ c ≤ 57
    · have hc : ¬ c = 95 := by omega
      have hmono := le_decVal (spanDigits rest).1 (n * 10 + (c - 48))
      have hstep : decVal n (c :: (spanDigits rest).1)
          = decVal (n * 10 + (c - 48)) (spanDigits rest).1 := rfl
      simp only [parseUintLoop, spanDigits, hd, hc, and_self, if_true, false_and, if_false,
        hstep]
      by_cases hcut : n ≥ 1844674407370955162
      · have hbig : 18446744073709551616 ≤ decVal (n * 10 + (c - 48)) (spanDigits rest).1 := by
          omega
        have hdig : ¬ c - 48 ≥ 10 % 256 := by omega
        simp only [hdig, hcut, hbig, if_true, if_false]
      · have hdig : ¬ c - 48 ≥ 10 % 256 := by omega
        have hmul : n * 10 % 2 ^ 64 = n * 10 := Nat.mod_eq_of_lt (by omega)
        simp only [hdig, hcut, if_false, hmul]
        by_cases hover : 18446744073709551616 ≤ n * 10 + (c - 48)
        · have hbig : 18446744073709551616 ≤ decVal (n * 10 + (c - 48)) (spanDigits rest).1 := by
            omega
          have hwrap : (n * 10 + (c - 48)) % 2 ^ 64 < n * 10 := by omega
          simp only [hwrap, hbig, true_or, if_true]
        · have hadd : (n * 10 + (c - 48)) % 2 ^ 64 = n * 10 + (c - 48) :=
            Nat.mod_eq_of_lt (by omega)
          have hno : ¬ (n * 10 + (c - 48) < n * 10 ∨ n * 10 + (c - 48) > 18446744073709551615) := by
            omega
          simp only [hadd, hno, if_false]
          exact ih (n * 10 + (c - 48)) (by omega)
    · have hn' : ¬ 18446744073709551616 ≤ n := by omega
      have hval : decVal n [] = n := rfl
      simp only [parseUintLoop, spanDigits, hd, if_false, Bool.false_eq_true, and_false, hval, hn',
        ne_eq, reduceCtorEq, not_false_eq_true, if_true]
      by_cases hl : 97 ≤ lower c ∧ lower c ≤ 122
      · have hdig : (lower c - 97 + 10) % 256 ≥ 10 % 256 := by omega
        simp only [hl, and_self, if_true, hdig]
      · simp only [hl, if_false]

/-- The function `ParseUint(s, 10, 64)` in closed form: the maximal value and a range
error when the leading digits exceed 64 bits, zero and a syntax error when the text is
empty or holds a byte that is not a digit, and the value of the digits otherwise. -/
theorem ParseUint_decimal (s : GoString) :
    ParseUint s 10 64
      = if 2 ^ 64 ≤ decVal 0 (spanDigits s).1 then
          (2 ^ 64 - 1, some (rangeError (str "ParseUint") s))
        else if s = [] ∨ (spanDigits s).2 ≠ [] then (0, some (syntaxError (str "ParseUint") s))
        else (decVal 0 (spanDigits s).1, none) := by
  by_cases hs : s = []
  · subst hs
    simp [ParseUint, spanDigits, decVal]
  · have hloop := parseUintLoop_decimal s 0 (by norm_num)
    have hcut : maxUint64 / 10 + 1 = 1844674407370955162 := by norm_num [maxUint64]
    have h64 : (64 : Int).toNat = 64 := rfl
    have h10 : (10 : Int).toNat = 10 := rfl
    have hmax : ((2 ^ 64) % 2 ^ 64 + 2 ^ 64 - 1) % 2 ^ 64 = 18446744073709551615 := by norm_num
    have hpow : (2 : Nat) ^ 64 = 18446744073709551616 := by norm_num
    have hsub : 18446744073709551616 - 1 = 18446744073709551615 := by norm_num
    simp only [ParseUint, hs, if_false, IntSize, h64, h10, hcut, hmax]
    simp only [hpow, hsub]
    have e1 : ¬ ((10 : Int) = 0) := by decide
    have e2 : ¬ ((64 : Int) = 0) := by decide
    have e3 : (2 : Int) ≤ 10 ∧ (10 : Int) ≤ 36 := by decide
    have e4 : ¬ ((64 : Int) < 0 ∨ (64 : Int) > 64) := by decide
    have e5 : (2 ^ 64 % 18446744073709551616 + 18446744073709551616 - 1) % 18446744073709551616
        = 18446744073709551615 := by norm_num
    simp only [e1, e2, e3, e4, if_false, true_or, not_true_eq_false, h64, e5, hcut, hloop,
      decide_False, false_or]
    by_cases hr : 18446744073709551616 ≤ decVal 0 (spanDigits s).1
    · simp [hr, rangeError]
    · by_cases hx : (spanDigits s).2 ≠ []
      · simp [hr, hx, syntaxError]
      · simp [hr, hx]

/-! ## Decimal text -/

/-- The byte of the character of a decimal digit. -/
theorem digitChar_toNat (m : Nat) (hm : m < 10) : (Nat.digitChar m).toNat = 48 + m := by
  interval_cases m <;> rfl

/-- A digit appended to a run multiplies its value by ten and adds the digit. -/
theorem decVal_append (acc : Nat) (ds : List Nat) (c : Nat) :
    decVal acc (ds ++ [c]) = decVal acc ds * 10 + (c - 48) := by
  simp [decVal, List.foldl_append]

/-- A run of digit bytes is its own leading run of digits. -/
theorem spanDigits_of_digits (l : List Nat) (h : ∀ c ∈ l, 48 ≤ c ∧ c ≤ 57) :
    spanDigits l = (l, []) := by
  induction l with
  | nil => rfl
  | cons c rest ih =>
    have hc := h c (List.mem_cons_self _ _)
    have hrest := ih (fun x hx => h x (List.mem_cons_of_mem _ hx))
    simp [spanDigits, hc, hrest]

/-- The accumulator of `Nat.toDigitsCore` is carried behind the digits untouched. -/
theorem toDigitsCore_acc (fuel : Nat) :
    ∀ (n : Nat) (acc : List Char),
      Nat.toDigitsCore 10 fuel n acc = Nat.toDigitsCore 10 fuel n [] ++ acc := by
  induction fuel with
  | zero => intro n acc; rfl
  | succ k ih =>
    intro n acc
    by_cases hq : n / 10 = 0
    · simp [Nat.toDigitsCore, hq]
    · have h1 := ih (n / 10) (Nat.digitChar (n % 10) :: acc)
      have h2 := ih (n / 10) [Nat.digitChar (n % 10)]
      simp only [Nat.toDigitsCore, hq, if_false]
      rw [h1, h2, List.append_assoc, List.singleton_append]

/-- The bytes that `Nat.toDigitsCore` writes for a number below its fuel: a non-empty run
of digit bytes that denotes the number. -/
theorem toDigitsCore_bytes (fuel : Nat) :
    ∀ n, n < fuel →
      (Nat.toDigitsCore 10 fuel n []).map Char.toNat ≠ [] ∧
      (∀ c ∈ (Nat.toDigitsCore 10 fuel n []).map Char.toNat, 48 ≤ c ∧ c ≤ 57) ∧
      decVal 0 ((Nat.toDigitsCore 10 fuel n []).map Char.toNat) = n := by
  induction fuel with
  | zero => intro n h; omega
  | succ k ih =>
    intro n hn
    have hdc := digitChar_toNat (n % 10) (Nat.mod_lt _ (by norm_num))
    by_cases hq : n / 10 = 0
    · have hl : Nat.toDigitsCore 10 (k + 1) n [] = [Nat.digitChar (n % 10)] := by
        simp [Nat.toDigitsCore, hq]
      rw [hl]
      refine ⟨by simp, ?_, ?_⟩
      · intro c hc
        simp only [List.map_cons, List.map_nil, List.mem_singleton] at hc
        omega
      · simp only [List.map_cons, List.map_nil, decVal, List.foldl_cons, List.foldl_nil, hdc]
        omega
    · have hl : Nat.toDigitsCore 10 (k + 1) n []
          = Nat.toDigitsCore 10 k (n / 10) [] ++ [Nat.digitChar (n % 10)] := by
        simp only [Nat.toDigitsCore, hq, if_false]
        exact toDigitsCore_acc k (n / 10) _
      obtain ⟨_, hdig, hval⟩ := ih (n / 10) (by omega)
      rw [hl, List.map_append, List.map_cons, List.map_nil]
      refine ⟨by simp, ?_, ?_⟩
      · intro c hc
        rw [List.mem_append, List.mem_singleton] at hc
        rcases hc with hc | hc
        · exact hdig c hc
        · omega
      · rw [decVal_append, hval, hdc]
        omega

/-- The decimal text of a number is a non-empty run of digit bytes whose value is the
number. -/
theorem decimalText_spec (n : Nat) :
    decimalText n ≠ [] ∧ spanDigits (decimalText n) = (decimalText n, []) ∧
      decVal 0 (decimalText n) = n := by
  have htext : decimalText n = (Nat.toDigitsCore 10 (n + 1) n []).map Char.toNat := rfl
  obtain ⟨hne, hdig, hval⟩ := toDigitsCore_bytes (n + 1) n (Nat.lt_succ_self n)
  rw [htext]
  exact ⟨hne, spanDigits_of_digits _ hdig, hval⟩

/-- The function `ParseUint(s, 10, 64)` reads the decimal text of a 64-bit number back. -/
theorem ParseUint_decimalText (n : Nat) (hn : n < 2 ^ 64) :
    ParseUint (decimalText n) 10 64 = (n, none) := by
  obtain ⟨hne, hspan, hval⟩ := decimalText_spec n
  have hlt : ¬ 2 ^ 64 ≤ n := by omega
  rw [ParseUint_decimal, hspan]
  simp only [hval, hlt, hne, if_false, ne_eq, not_true_eq_false, or_self]

/-! ## Error unwrapping -/

/-- C5: `handleError` returns the transport error whenever there is one, whatever the
protocol error of the response is; without a transport error it returns the protocol
error of the response; and it returns nil exactly when both are nil. -/
theorem handleError_precedence (err : Option GoError) (r : RpcResponse) :
    (∀ e, err = some e → handleError err r = some e) ∧
    (err = none → handleError err r = r.Err) ∧
    (handleError err r = none ↔ err = none ∧ r.Err = none) := by
  refine ⟨?_, ?_, ?_⟩
  · rintro e rfl
    rfl
  · rintro rfl
    cases hr : r.Err <;> simp [handleError, hr]
  · cases err <;> cases hr : r.Err <;> simp [handleError, hr]

/-- C5, at a response with a protocol error and a transport error of its own. -/
theorem handleError_precedence_witness :
    handleError (some (.foreign 1)) { Result := [], Err := some (.foreign 2) }
      = some (.foreign 1) :=
  (handleError_precedence (some (.foreign 1)) { Result := [], Err := some (.foreign 2) }).1
    (.foreign 1) rfl

/-! ## Construction -/

/-- C9: `New` hands the transport constructor the timeout 30 when no timeout parameter is
given and the first of the parameters otherwise (the handle of the new client is the one
the constructor made with that timeout), and it returns a nil client with the construction
error whenever the constructor fails. -/
theorem New_timeout {C : Type}
    (NewClient : GoString → Int → GoString → GoString → Bool → Int → C × Option GoError)
    (host : GoString) (port : Int) (user passwd : GoString) (useSSL : Bool) :
    (New NewClient host port user passwd useSSL []
      = match NewClient host port user passwd useSSL 30 with
        | (_, some e) => (none, some e)
        | (c, none) => (some { client := c }, none)) ∧
    (∀ t rest, New NewClient host port user passwd useSSL (t :: rest)
      = match NewClient host port user passwd useSSL t with
        | (_, some e) => (none, some e)
        | (c, none) => (some { client := c }, none)) ∧
    (∀ timeoutParam c e,
      NewClient host port user passwd useSSL (timeoutParam.headD 30) = (c, some e) →
      New NewClient host port user passwd useSSL timeoutParam = (none, some e)) := by
  refine ⟨?_, ?_, ?_⟩
  · simp only [New, RPCCLIENT_TIMEOUT]
    rcases NewClient host port user passwd useSSL 30 with ⟨c, _ | e⟩ <;> rfl
  · intro t rest
    simp only [New]
    rcases NewClient host port user passwd useSSL t with ⟨c, _ | e⟩ <;> rfl
  · intro timeoutParam c e h
    cases timeoutParam with
    | nil =>
      simp only [List.headD_nil] at h
      simp only [New, RPCCLIENT_TIMEOUT, h]
    | cons t rest =>
      simp only [List.headD_cons] at h
      simp only [New, h]

/-- C9, at a constructor whose handle is the timeout it was given and which fails on a
negative timeout. -/
theorem New_timeout_witness :
    New (fun _ _ _ _ _ (t : Int) => (t, if t < 0 then some (GoError.foreign 0) else none))
        (str "localhost") 8332 (str "user") (str "secret") false []
      = (some { client := 30 }, none) ∧
    New (fun _ _ _ _ _ (t : Int) => (t, if t < 0 then some (GoError.foreign 0) else none))
        (str "localhost") 8332 (str "user") (str "secret") false [5, 7]
      = (some { client := 5 }, none) ∧
    New (fun _ _ _ _ _ (t : Int) => (t, if t < 0 then some (GoError.foreign 0) else none))
        (str "localhost") 8332 (str "user") (str "secret") false [-1]
      = (none, some (GoError.foreign 0)) :=
  ⟨(New_timeout _ (str "localhost") 8332 (str "user") (str "secret") false).1,
   (New_timeout _ (str "localhost") 8332 (str "user") (str "secret") false).2.1 5 [7],
   (New_timeout (fun _ _ _ _ _ (t : Int) =>
        (t, if t < 0 then some (GoError.foreign 0) else none))
      (str "localhost") 8332 (str "user") (str "secret") false).2.2 [-1] (-1) (.foreign 0) rfl⟩

/-! ## Argument validation and invocation -/

/-- C1: with zero or one account name `GetNewAddress` invokes the transport exactly once,
with method `getnewaddress` and the list of exactly those names: the collaborator is left
in the state that this one application of `b.client.Call` yields, the trace grows by that
one invocation, and the result is the one unwrapped and decoded from its response.  With
two or more names it returns a non-nil error and an empty address, and the transport is
not invoked (the world, trace included, is unchanged). -/
theorem GetNewAddress_arity {σ : Type} (b : Bitcoin (RpcClient σ)) (account : List GoString)
    (w : World σ) :
    (account.length ≤ 1 →
      (b.GetNewAddress account w).2
        = { net := (b.client.Call (str "getnewaddress") (.strings account) w.net).2,
            calls := w.calls ++
              [{ method := str "getnewaddress", params := .strings account }] } ∧
      (b.GetNewAddress account w).1
        = match handleError
            (b.client.Call (str "getnewaddress") (.strings account) w.net).1.2
            (b.client.Call (str "getnewaddress") (.strings account) w.net).1.1 with
          | some e => ([], some e)
          | none =>
            Unmarshal storeString
              (b.client.Call (str "getnewaddress") (.strings account) w.net).1.1.Result []) ∧
    (2 ≤ account.length →
      (∃ e, (b.GetNewAddress account w).1 = ([], some e)) ∧
      (b.GetNewAddress account w).2 = w) := by
  constructor
  · intro h
    have h1 : ¬ account.length > 1 := by omega
    simp only [Bitcoin.GetNewAddress, h1, if_false, Bitcoin.call]
    cases handleError _ _ <;> exact ⟨rfl, rfl⟩
  · intro h
    have h1 : account.length > 1 := by omega
    refine ⟨⟨.errorString
      (str "Bad parameters for GetNewAddress: you can set 0 or 1 account"), ?_⟩, ?_⟩ <;>
      simp only [Bitcoin.GetNewAddress, h1, if_true]

/-- C1, at one account name (one call made, its address decoded) and at two (no call). -/
theorem GetNewAddress_arity_witness :
    (((constBitcoin { Result := str "\"addr\"", Err := none } none).GetNewAddress
        [str "alice"] World.fresh).2
      = { net := 1,
          calls := [{ method := str "getnewaddress", params := .strings [str "alice"] }] } ∧
     ((constBitcoin { Result := str "\"addr\"", Err := none } none).GetNewAddress
        [str "alice"] World.fresh).1 = (str "addr", none)) ∧
    ((constBitcoin { Result := str "\"addr\"", Err := none } none).GetNewAddress
        [str "alice", str "bob"] World.fresh).2 = World.fresh :=
  ⟨(GetNewAddress_arity (constBitcoin { Result := str "\"addr\"", Err := none } none)
      [str "alice"] World.fresh).1 (by decide),
   ((GetNewAddress_arity (constBitcoin { Result := str "\"addr\"", Err := none } none)
      [str "alice", str "bob"] World.fresh).2 (by decide)).2⟩

/-- C2: for an estimate mode other than `UNSET`, `ECONOMICAL` and `CONSERVATIVE`,
`EstimateSmartFee` returns a non-nil error and the zero `SmartFee`, and the transport is
not invoked (the world, trace included, is unchanged). -/
theorem EstimateSmartFee_invalid_mode {σ : Type} (b : Bitcoin (RpcClient σ))
    (unmarshal : GoString → SmartFee → SmartFee × Option GoError)
    (minconf : Int) (estimateMode : GoString) (w : World σ)
    (h1 : estimateMode ≠ str "UNSET") (h2 : estimateMode ≠ str "ECONOMICAL")
    (h3 : estimateMode ≠ str "CONSERVATIVE") :
    (∃ e, (b.EstimateSmartFee unmarshal minconf estimateMode w).1
        = ({ FeeRate := 0, Errors := [], Blocks := 0 }, some e)) ∧
    (b.EstimateSmartFee unmarshal minconf estimateMode w).2 = w := by
  have hv : validEstimateMode estimateMode = false := by
    simp only [validEstimateMode, List.lookup]
    have e1 : (estimateMode == str "UNSET") = false := by simpa using h1
    have e2 : (estimateMode == str "ECONOMICAL") = false := by simpa using h2
    have e3 : (estimateMode == str "CONSERVATIVE") = false := by simpa using h3
    simp only [e1, e2, e3]
  refine ⟨⟨.errorString (str "Not valid estimateMode: " ++ estimateMode), ?_⟩, ?_⟩ <;>
    simp only [Bitcoin.EstimateSmartFee, hv, if_true, SmartFee.zero]

/-- C2, at the lower-case mode `unset`. -/
theorem EstimateSmartFee_invalid_mode_witness :
    (∃ e, ((constBitcoin { Result := [], Err := none } none).EstimateSmartFee
        (fun _ cur => (cur, none)) 6 (str "unset") World.fresh).1
        = ({ FeeRate := 0, Errors := [], Blocks := 0 }, some e)) ∧
    ((constBitcoin { Result := [], Err := none } none).EstimateSmartFee
        (fun _ cur => (cur, none)) 6 (str "unset") World.fresh).2 = World.fresh :=
  EstimateSmartFee_invalid_mode (constBitcoin { Result := [], Err := none } none)
    (fun _ cur => (cur, none)) 6 (str "unset") World.fresh
    (by decide) (by decide) (by decide)

/-- C3: when `0 < maxconf < minconf`, `ListUnspent` invokes the transport once, with
method `listunspent` and the two arguments `(minconf, minconf)`: the collaborator is left
in the state that this one application of `b.client.Call` yields, the trace grows by that
one invocation, the result is the one unwrapped and decoded from its response, and the
invocation recorded is not the one with the original `maxconf`.  (The statement holds for
all naturals, the unsigned 64-bit ones among them.) -/
theorem ListUnspent_clamps {σ : Type} (b : Bitcoin (RpcClient σ))
    (unmarshal : GoString → List Transaction → List Transaction × Option GoError)
    (minconf maxconf : Nat) (w : World σ) (hpos : 0 < maxconf) (hlt : maxconf < minconf) :
    (b.ListUnspent unmarshal minconf maxconf w).2
      = { net := (b.client.Call (str "listunspent")
            (.values [.uint64 minconf, .uint64 minconf]) w.net).2,
          calls := w.calls ++ [{ method := str "listunspent",
                                 params := .values [.uint64 minconf, .uint64 minconf] }] } ∧
    (b.ListUnspent unmarshal minconf maxconf w).1
      = (match handleError
          (b.client.Call (str "listunspent")
            (.values [.uint64 minconf, .uint64 minconf]) w.net).1.2
          (b.client.Call (str "listunspent")
            (.values [.uint64 minconf, .uint64 minconf]) w.net).1.1 with
        | some e => ([], some e)
        | none =>
          unmarshal (b.client.Call (str "listunspent")
            (.values [.uint64 minconf, .uint64 minconf]) w.net).1.1.Result []) ∧
    (b.ListUnspent unmarshal minconf maxconf w).2.calls
      ≠ w.calls ++ [{ method := str "listunspent",
                      params := .values [.uint64 minconf, .uint64 maxconf] }] := by
  have ha : listUnspentArgs minconf maxconf = [.uint64 minconf, .uint64 minconf] := by
    simp [listUnspentArgs, hpos, hlt]
  have hne : minconf ≠ maxconf := by omega
  simp only [Bitcoin.ListUnspent, ha, Bitcoin.call]
  cases handleError _ _ <;> simp [hne]

/-- C3, at `minconf = 6`, `maxconf = 2`. -/
theorem ListUnspent_clamps_witness :
    ((constBitcoin { Result := str "[]", Err := none } none).ListUnspent
        (fun _ cur => (cur, none)) 6 2 World.fresh).2
      = { net := 1,
          calls := [{ method := str "listunspent",
                      params := .values [.uint64 6, .uint64 6] }] } :=
  (ListUnspent_clamps (constBitcoin { Result := str "[]", Err := none } none)
    (fun _ cur => (cur, none)) 6 2 World.fresh (by decide) (by decide)).1

/-- C4: with `maxconf = 0`, `ListUnspent` invokes the transport once, with method
`listunspent` and the single argument `minconf`: the collaborator is left in the state
that this one application of `b.client.Call` yields, the trace grows by that one
invocation, and the result is the one unwrapped and decoded from its response. -/
theorem ListUnspent_no_max {σ : Type} (b : Bitcoin (RpcClient σ))
    (unmarshal : GoString → List Transaction → List Transaction × Option GoError)
    (minconf : Nat) (w : World σ) :
    (b.ListUnspent unmarshal minconf 0 w).2
      = { net := (b.client.Call (str "listunspent") (.values [.uint64 minconf]) w.net).2,
          calls := w.calls ++ [{ method := str "listunspent",
                                 params := .values [.uint64 minconf] }] } ∧
    (b.ListUnspent unmarshal minconf 0 w).1
      = (match handleError
          (b.client.Call (str "listunspent") (.values [.uint64 minconf]) w.net).1.2
          (b.client.Call (str "listunspent") (.values [.uint64 minconf]) w.net).1.1 with
        | some e => ([], some e)
        | none =>
          unmarshal
            (b.client.Call (str "listunspent") (.values [.uint64 minconf]) w.net).1.1.Result
            []) := by
  have ha : listUnspentArgs minconf 0 = [.uint64 minconf] := by
    simp [listUnspentArgs]
  simp only [Bitcoin.ListUnspent, ha, Bitcoin.call]
  cases handleError _ _ <;> exact ⟨rfl, rfl⟩

/-- C6: when the transport answers `getblockcount` with no transport error and a response
whose protocol error is `e`, `GetBlockCount` returns the count 0 and the error `e`,
whatever the payload of the response is. -/
theorem GetBlockCount_protocol_error {σ : Type} (b : Bitcoin (RpcClient σ)) (w : World σ)
    (payload : GoString) (e : GoError) (net : σ)
    (hcall : b.client.Call (str "getblockcount") .nil w.net
      = (({ Result := payload, Err := some e }, none), net)) :
    (b.GetBlockCount w).1 = (0, some e) := by
  simp only [Bitcoin.GetBlockCount, Bitcoin.call, hcall, handleError]

/-- C6, at a payload that would decode to 7. -/
theorem GetBlockCount_protocol_error_witness :
    ((constBitcoin { Result := str "7", Err := some (.foreign 3) } none).GetBlockCount
        World.fresh).1 = (0, some (.foreign 3)) :=
  GetBlockCount_protocol_error (constBitcoin { Result := str "7", Err := some (.foreign 3) } none)
    World.fresh (str "7") (.foreign 3) 1 rfl

/-! ## Decoding the block count -/

/-- C8: when the transport answers `getblockcount` with no transport error, no protocol
error and the decimal text of an unsigned 64-bit integer `n` as payload, `GetBlockCount`
returns the count `n` and a nil error. -/
theorem GetBlockCount_roundtrip {σ : Type} (b : Bitcoin (RpcClient σ)) (w : World σ)
    (n : Nat) (net : σ) (hn : n < 2 ^ 64)
    (hcall : b.client.Call (str "getblockcount") .nil w.net
      = (({ Result := decimalText n, Err := none }, none), net)) :
    (b.GetBlockCount w).1 = (n, none) := by
  simp only [Bitcoin.GetBlockCount, Bitcoin.call, hcall, handleError]
  exact ParseUint_decimalText n hn

/-- C8, at the payload `12345`. -/
theorem GetBlockCount_roundtrip_witness :
    ((constBitcoin { Result := str "12345", Err := none } none).GetBlockCount World.fresh).1
      = (12345, none) :=
  GetBlockCount_roundtrip (constBitcoin { Result := str "12345", Err := none } none)
    World.fresh 12345 1 (by norm_num) rfl

/-- C7 as stated fails: the payload `18446744073709551616` is not the decimal text of an
unsigned 64-bit integer and its decoding fails, yet the count returned with the error is
`18446744073709551615`, not zero. -/
theorem GetBlockCount_overflow_count_not_zero :
    (∀ n, n < 2 ^ 64 → decimalText n ≠ str "18446744073709551616") ∧
    (ParseUint (str "18446744073709551616") 10 64).2 ≠ none ∧
    ((constBitcoin { Result := str "18446744073709551616", Err := none } none).GetBlockCount
        World.fresh).1
      = (18446744073709551615,
          some (rangeError (str "ParseUint") (str "18446744073709551616"))) ∧
    ((constBitcoin { Result := str "18446744073709551616", Err := none } none).GetBlockCount
        World.fresh).1.1 ≠ 0 := by
  refine ⟨?_, by decide, by decide, by decide⟩
  intro n hn h
  have hp := ParseUint_decimalText n hn
  have hfail : (ParseUint (str "18446744073709551616") 10 64).2 ≠ none := by decide
  rw [h] at hp
  rw [hp] at hfail
  exact hfail rfl

/-- C7, amended: when the transport answers `getblockcount` with no transport error, no
protocol error and a payload that is not a non-empty run of decimal digits denoting a
number below `2 ^ 64` (it is empty, or has a byte that is not a decimal digit, or its
leading decimal digits denote `2 ^ 64` or more), `GetBlockCount` returns a non-nil decode
error; the count is zero when the leading decimal digits of the payload denote a number
below `2 ^ 64` (a syntax error), and it is `2 ^ 64 - 1` when they denote a larger number
(a range error). -/
theorem GetBlockCount_decode_error {σ : Type} (b : Bitcoin (RpcClient σ)) (w : World σ)
    (payload : GoString) (net : σ)
    (hcall : b.client.Call (str "getblockcount") .nil w.net
      = (({ Result := payload, Err := none }, none), net))
    (hbad : payload = [] ∨ (spanDigits payload).2 ≠ [] ∨
      2 ^ 64 ≤ decVal 0 (spanDigits payload).1) :
    (b.GetBlockCount w).1.2 ≠ none ∧
    (decVal 0 (spanDigits payload).1 < 2 ^ 64 →
      (b.GetBlockCount w).1 = (0, some (syntaxError (str "ParseUint") payload))) ∧
    (2 ^ 64 ≤ decVal 0 (spanDigits payload).1 →
      (b.GetBlockCount w).1 = (2 ^ 64 - 1, some (rangeError (str "ParseUint") payload))) := by
  have hres : (b.GetBlockCount w).1 = ParseUint payload 10 64 := by
    simp only [Bitcoin.GetBlockCount, Bitcoin.call, hcall, handleError]
  rw [hres, ParseUint_decimal]
  by_cases hge : 2 ^ 64 ≤ decVal 0 (spanDigits payload).1
  · rw [if_pos hge]
    refine ⟨?_, ?_, fun _ => rfl⟩
    · exact fun h => Option.noConfusion h
    · intro hlt
      omega
  · have hx : payload = [] ∨ (spanDigits payload).2 ≠ [] := by
      rcases hbad with h | h | h
      · exact Or.inl h
      · exact Or.inr h
      · exact absurd h hge
    rw [if_neg hge, if_pos hx]
    refine ⟨?_, fun _ => rfl, fun h => absurd h hge⟩
    exact fun h => Option.noConfusion h

/-- C7 amended, at the payloads `12x` (syntax error, zero count) and
`99999999999999999999` (range error, maximal count). -/
theorem GetBlockCount_decode_error_witness :
    ((constBitcoin { Result := str "12x", Err := none } none).GetBlockCount World.fresh).1
      = (0, some (syntaxError (str "ParseUint") (str "12x"))) ∧
    ((constBitcoin { Result := str "99999999999999999999", Err := none } none).GetBlockCount
        World.fresh).1
      = (2 ^ 64 - 1, some (rangeError (str "ParseUint") (str "99999999999999999999"))) :=
  ⟨(GetBlockCount_decode_error (constBitcoin { Result := str "12x", Err := none } none)
      World.fresh (str "12x") 1 rfl (by decide)).2.1 (by decide),
   (GetBlockCount_decode_error
      (constBitcoin { Result := str "99999999999999999999", Err := none } none)
      World.fresh (str "99999999999999999999") 1 rfl (by decide)).2.2 (by decide)⟩

/-! ## Decoding a signing result -/

/-- The decoder on the payload of the scenario. -/
theorem Unmarshal_signScenarioPayload :
    Unmarshal SignedRawTransaction.store signScenarioPayload SignedRawTransactionTarget.zero
      = ({ value := { Hex := str "...", Complete := false,
                      Errors := [{ Txid := str "abc", Vout := 0, ScriptSig := [],
                                   Sequence := 0, Error := str "bad-signature" }] },
           staleErrors := [] }, none) := by
  decide

/-- C10: when the transport answers `signrawtransactionwithwallet` with no transport
error, no protocol error and the payload of the scenario, the operation returns a nil
error and a `SignedRawTransaction` whose `Complete` is false and whose `Errors` has exactly
one element, with `Error` equal to `bad-signature`, `Txid` `abc`, `Vout` 0, `Sequence` 0
(and `Hex` equal to `...`, `ScriptSig` empty). -/
theorem SignRawTransactionWithWallet_scenario {σ : Type} (b : Bitcoin (RpcClient σ))
    (hex : GoString) (w : World σ) (net : σ)
    (hcall : b.client.Call (str "signrawtransactionwithwallet") (.values [.string hex]) w.net
      = (({ Result := signScenarioPayload, Err := none }, none), net)) :
    (b.SignRawTransactionWithWallet hex w).1
      = ({ Hex := str "...", Complete := false,
           Errors := [{ Txid := str "abc", Vout := 0, ScriptSig := [], Sequence := 0,
                        Error := str "bad-signature" }] }, none) := by
  simp only [Bitcoin.SignRawTransactionWithWallet, Bitcoin.call, hcall, handleError,
    Unmarshal_signScenarioPayload]

/-- C10, at a transport that always answers with the payload of the scenario. -/
theorem SignRawTransactionWithWallet_scenario_witness :
    ((constBitcoin { Result := signScenarioPayload, Err := none } none).SignRawTransactionWithWallet
        (str "0200") World.fresh).1.1.Complete = false ∧
    ((constBitcoin { Result := signScenarioPayload, Err := none } none).SignRawTransactionWithWallet
        (str "0200") World.fresh).1.1.Errors.map (fun e => e.Error) = [str "bad-signature"] ∧
    ((constBitcoin { Result := signScenarioPayload, Err := none } none).SignRawTransactionWithWallet
        (str "0200") World.fresh).1.2 = none := by
  have h := SignRawTransactionWithWallet_scenario
    (constBitcoin { Result := signScenarioPayload, Err := none } none) (str "0200") World.fresh 1 rfl
  rw [h]
  exact ⟨rfl, rfl, rfl⟩

end bitcoin
